import Mathlib

/-!
# gitness-ci: git hook input reader and space creation handler

A shallow embedding of

* `cli/operations/hooks/hooks.go` : `getUpdatedReferencesFromStdIn`
* `internal/api/handler/space/create.go` : `HandleCreate`

Go strings read from standard input are byte sequences, modelled as `List UInt8`.
Go functions returning `(value, error)` are modelled as pairs whose second
component is `none` for a nil error.
-/

namespace Hooks

/-- A Go byte. -/
abbrev Byte := UInt8

/-- The byte of `'\n'`. -/
def LF : Byte := 10

/-- The byte of `" "`. -/
def SP : Byte := 32

/-- Errors a read from standard input can return: `io.EOF` or any other error. -/
inductive IOError where
  | EOF
  | other (msg : String)
  deriving DecidableEq

/-- The `bufio.Reader` wrapped around `os.Stdin`: the bytes that are still to be
delivered and the error the stream reports once they are used up (`io.EOF` for a
stream that simply ends). -/
structure Reader where
  pending : List Byte
  tail : IOError
  deriving DecidableEq

/-- Cut a byte sequence right after the first occurrence of `delim`; `none` when
`delim` does not occur. -/
def cutAfter (delim : Byte) : List Byte → Option (List Byte × List Byte)
  | [] => none
  | b :: bs =>
    if b = delim then some ([b], bs)
    else
      match cutAfter delim bs with
      | none => none
      | some (line, rest) => some (b :: line, rest)

/-- The method `(*bufio.Reader).ReadString(delim)`: reads until the first occurrence of
`delim` and returns the data up to and including the delimiter; when the stream
fails before a delimiter is found, returns the data read so far together with the
error. -/
def ReadString (rd : Reader) (delim : Byte) : List Byte × Option IOError × Reader :=
  match cutAfter delim rd.pending with
  | some (line, rest) => (line, none, { rd with pending := rest })
  | none => (rd.pending, some rd.tail, { rd with pending := [] })

/-- The function `strings.Split(s, sep)` for a separator of one byte: the pieces of
`s` between the occurrences of `sep` (one more piece than there are
occurrences; a single empty piece for the empty string). -/
def Split (s : List Byte) (sep : Byte) : List (List Byte) :=
  match s with
  | [] => [[]]
  | c :: cs =>
    if c = sep then [] :: Split cs sep
    else
      match Split cs sep with
      | [] => [[c]]
      | f :: fs => (c :: f) :: fs

/-- One updated reference, `hooks.go` lines 20-24. -/
structure updatedRefData where
  branch : List Byte
  oldCommit : List Byte
  newCommit : List Byte
  deriving DecidableEq

/-- The errors `getUpdatedReferencesFromStdIn` returns: a failed read (line 47) or
the format error of line 56, which carries the split of the offending line. -/
inductive HookError where
  | read (err : IOError)
  | invalidFormat (splitGitHookData : List (List Byte))
  deriving DecidableEq

/-- The first loop of `getUpdatedReferencesFromStdIn` (lines 39-50), one iteration
per unit of fuel. The result is `none` when the fuel runs out, otherwise the pair
`(lines, err)` the loop leaves behind: `err` is `none` after the `break` on
`io.EOF` and the read error after the `return nil, err` of line 47. -/
def readLines : Nat → Reader → List (List Byte) → Option (List (List Byte) × Option IOError)
  | 0, _, _ => none
  | fuel + 1, reader, lines =>
    match ReadString reader LF with
    | (_, some IOError.EOF, _) => some (lines, none)
    | (_, some err, _) => some ([], some err)
    | (line, none, reader') => readLines fuel reader' (lines ++ [line])

/-- The second loop of `getUpdatedReferencesFromStdIn` (lines 51-67) over the
lines that are left to process, with the entries collected so far. -/
def parseLines : List (List Byte) → List updatedRefData → List updatedRefData × Option HookError
  | [], updatedRefs => (updatedRefs, none)
  | data :: rest, updatedRefs =>
    let splitGitHookData := Split data SP
    if splitGitHookData.length ≠ 3 then
      ([], some (HookError.invalidFormat splitGitHookData))
    else
      parseLines rest (updatedRefs ++ [{
        oldCommit := splitGitHookData.getD 0 []
        newCommit := splitGitHookData.getD 1 []
        branch := splitGitHookData.getD 2 [] }])

/-- The function `getUpdatedReferencesFromStdIn` run with a bound on the number of
iterations of its read loop. -/
def getUpdatedReferencesFromStdInFuel (fuel : Nat) (stdin : Reader) :
    Option (List updatedRefData × Option HookError) :=
  match readLines fuel stdin [] with
  | none => none
  | some (_, some err) => some ([], some (HookError.read err))
  | some (lines, none) => some (parseLines lines [])

/-- The function `getUpdatedReferencesFromStdIn` (`hooks.go` lines 36-68). Every
successful read consumes at least one byte, so one more iteration than there are
pending bytes is enough for the read loop; the result is `some (updatedRefs, err)`
with the two values the Go function returns. -/
def getUpdatedReferencesFromStdIn (stdin : Reader) :
    Option (List updatedRefData × Option HookError) :=
  getUpdatedReferencesFromStdInFuel (stdin.pending.length + 1) stdin

/-- The input made of the given lines, each followed by LF. -/
def unlines : List (List Byte) → List Byte
  | [] => []
  | l :: ls => l ++ LF :: unlines ls

/-- The line `<old> SP <new> SP <ref>` (without its LF) of three fields. -/
def refLine (t : List Byte × List Byte × List Byte) : List Byte :=
  t.1 ++ SP :: (t.2.1 ++ SP :: t.2.2)

/-- A field of a well-formed line: it holds neither a space nor a LF. -/
def fieldOk (f : List Byte) : Prop := SP ∉ f ∧ LF ∉ f

/-- The three fields of a line are well-formed. -/
def tripleOk (t : List Byte × List Byte × List Byte) : Prop :=
  fieldOk t.1 ∧ fieldOk t.2.1 ∧ fieldOk t.2.2

/-- What the read loop leaves behind at the end of the stream. -/
def readEnd (lines : List (List Byte)) : IOError → List (List Byte) × Option IOError
  | IOError.EOF => (lines, none)
  | err => ([], some err)

/-- The entry the code builds from a well-formed line: the third field keeps the LF. -/
def entryOf (t : List Byte × List Byte × List Byte) : updatedRefData :=
  { oldCommit := t.1, newCommit := t.2.1, branch := t.2.2 ++ [LF] }

end Hooks

namespace SpaceHandler

/-- A Go `error` value of the collaborators, kept as its message. -/
abbrev Error := String

/-- The type `types.Principal`: the handler reads its `ID` only. -/
structure Principal where
  ID : Int
  deriving DecidableEq

/-- The type `types.Space`, with the fields the handler reads or writes. -/
structure Space where
  Path : String
  PathName : String
  ParentID : Int
  Name : String
  Description : String
  IsPublic : Bool
  CreatedBy : Int
  Created : Int
  Updated : Int
  deriving DecidableEq

/-- The type `types.Scope`. -/
structure Scope where
  SpacePath : String
  deriving DecidableEq

/-- The resource types of package `enum`; the handler names `ResourceTypeSpace`. -/
inductive ResourceType where
  | ResourceTypeSpace
  | other (name : String)
  deriving DecidableEq

/-- The type `types.Resource`; its Go field `Type` is written `Type_`. -/
structure Resource where
  Type_ : ResourceType
  Name : String
  deriving DecidableEq

/-- The permissions of package `enum`; the handler names `PermissionSpaceCreate`. -/
inductive Permission where
  | PermissionSpaceCreate
  | other (name : String)
  deriving DecidableEq

/-- The request body, `create.go` lines 24-30. -/
structure spaceCreateRequest where
  PathName : String
  ParentID : Int
  Name : String
  Description : String
  IsPublic : Bool
  deriving DecidableEq

/-- What the handler takes from the `*http.Request`: the outcome of decoding the
JSON body into a `spaceCreateRequest` (line 41) and the principal stored in the
request context (line 48, `none` for a nil principal). -/
structure Request where
  body : Except Error spaceCreateRequest
  principal : Option Principal

/-- The interface `store.SpaceStore`, with the two methods the handler calls. Each
returns the Go pair: `Find` the space pointer (`none` for nil) and the error,
`Create` the space as the store leaves it behind the pointer and the error. -/
structure SpaceStore where
  Find : Int → Option Space × Option Error
  Create : Space → Space × Option Error

/-- The type `*guard.Guard`, with the method the handler calls. `Enforce` receives the
request (which carries the principal), writes its own error response when it
returns `false`, and returns whether the request may go on. -/
structure Guard where
  Enforce : Request → Scope → Resource → Permission → Bool

/-- The package-level functions and constants the handler uses that are not among
the sources: `strings.ToLower`, the validators `check.Space` and `check.Path`
(`none` for a nil error), the two readings of `time.Now().UnixMilli()` and the
path separator of package `types`. -/
structure Externals where
  ToLower : String → String
  checkSpace : Space → Option Error
  checkPath : String → Bool → Option Error
  nowCreated : Int
  nowUpdated : Int
  PathSeparator : String

/-- Modelled from the spec: `paths.Concatinate`, of package `internal/paths`, which is
not among the sources. Spec 4.2: "joins with the fixed separator; if parentPath is
empty, result is just childSegment". -/
def Concatinate (separator parentPath childSegment : String) : String :=
  if parentPath = "" then childSegment else parentPath ++ separator ++ childSegment

/-- The responses the handler renders through package `render`. -/
inductive Response where
  | BadRequestf (err : Error)
  | Unauthorized
  | UserfiedErrorOrInternal (err : Error)
  | JSON (status : Nat) (space : Space)
  deriving DecidableEq

/-- The calls the handler makes to its collaborators, with their arguments. -/
inductive Event where
  | Find (id : Int)
  | Enforce (scope : Scope) (resource : Resource) (permission : Permission)
  | checkSpace (space : Space)
  | checkPath (path : String) (isSpace : Bool)
  | Create (space : Space)
  | render (response : Response)
  deriving DecidableEq

/-- How a run of the handler ends: it returns, or it panics on a nil pointer, at
`parent.Path` (line 74) or at `principal.ID` (line 93). -/
inductive Outcome where
  | returned
  | nilParent
  | nilPrincipal
  deriving DecidableEq

/-- A run of the handler: the calls it made, in order, and how it ended. -/
structure Run where
  trace : List Event
  outcome : Outcome
  deriving DecidableEq

/-- The space object of `create.go` lines 87-96; `Path` is left at its zero value. -/
def newSpace (ext : Externals) (req : spaceCreateRequest) (principal : Principal) : Space :=
  { Path := ""
    PathName := ext.ToLower req.PathName
    ParentID := req.ParentID
    Name := req.Name
    Description := req.Description
    IsPublic := req.IsPublic
    CreatedBy := principal.ID
    Created := ext.nowCreated
    Updated := ext.nowUpdated }

/-- The part of `HandleCreate` after authorization (lines 86-122): `done` holds the
calls made so far and `parentPath` the local variable of line 51. -/
def createSpace (spaceStore : SpaceStore) (ext : Externals) (req : spaceCreateRequest)
    (principal : Option Principal) (parentPath : String) (done : List Event) : Run :=
  match principal with
  | none => ⟨done, Outcome.nilPrincipal⟩
  | some p =>
    let space := newSpace ext req p
    match ext.checkSpace space with
    | some err =>
      ⟨done ++ [Event.checkSpace space, Event.render (Response.UserfiedErrorOrInternal err)],
        Outcome.returned⟩
    | none =>
      let path := Concatinate ext.PathSeparator parentPath space.PathName
      match ext.checkPath path true with
      | some err =>
        ⟨done ++ [Event.checkSpace space, Event.checkPath path true,
            Event.render (Response.UserfiedErrorOrInternal err)], Outcome.returned⟩
      | none =>
        match spaceStore.Create space with
        | (_, some err) =>
          ⟨done ++ [Event.checkSpace space, Event.checkPath path true, Event.Create space,
              Event.render (Response.UserfiedErrorOrInternal err)], Outcome.returned⟩
        | (stored, none) =>
          ⟨done ++ [Event.checkSpace space, Event.checkPath path true, Event.Create space,
              Event.render (Response.JSON 200 stored)], Outcome.returned⟩

/-- The handler returned by `HandleCreate(guard, spaceStore)` (`create.go` lines
35-124), run on one request. -/
def HandleCreate (guard : Guard) (spaceStore : SpaceStore) (ext : Externals) (r : Request) :
    Run :=
  match r.body with
  | Except.error err => ⟨[Event.render (Response.BadRequestf err)], Outcome.returned⟩
  | Except.ok req =>
    let principal := r.principal
    if req.ParentID ≤ 0 then
      match principal with
      | none => ⟨[Event.render Response.Unauthorized], Outcome.returned⟩
      | some _ => createSpace spaceStore ext req principal "" []
    else
      match spaceStore.Find req.ParentID with
      | (_, some err) =>
        ⟨[Event.Find req.ParentID, Event.render (Response.UserfiedErrorOrInternal err)],
          Outcome.returned⟩
      | (none, none) => ⟨[Event.Find req.ParentID], Outcome.nilParent⟩
      | (some parent, none) =>
        let scope : Scope := { SpacePath := parent.Path }
        let resource : Resource := { Type_ := ResourceType.ResourceTypeSpace, Name := "" }
        if guard.Enforce r scope resource Permission.PermissionSpaceCreate = false then
          ⟨[Event.Find req.ParentID,
            Event.Enforce scope resource Permission.PermissionSpaceCreate], Outcome.returned⟩
        else
          createSpace spaceStore ext req principal parent.Path
            [Event.Find req.ParentID,
              Event.Enforce scope resource Permission.PermissionSpaceCreate]

/-- The decisions of the authorization guard. -/
inductive Decision where
  | allow
  | authenticationRequired
  | deny
  deriving DecidableEq

/-- The policy-evaluation collaborator of the guard: which permissions require an
identified actor, and the evaluation of a check, which may fail. -/
structure Policy where
  requiresIdentified : Permission → Bool
  evaluate : Option Principal → Scope → Resource → Permission → Except Error Bool

/-- Modelled from the spec: the decision of `guard.Enforce`, of package
`internal/guard`, which is not among the sources. Spec 4.4: "If principal is absent
(anonymous) and the permission requires an identified actor, the decision is
deny, reported as an authentication-required outcome", "any error while resolving
scope, fetching policy, or evaluating the decision is treated as deny, never as
allow", and otherwise the decision is that of the policy. -/
def enforce (policy : Policy) (principal : Option Principal) (scope : Scope)
    (resource : Resource) (permission : Permission) : Decision :=
  if principal.isNone && policy.requiresIdentified permission then
    Decision.authenticationRequired
  else
    match policy.evaluate principal scope resource permission with
    | Except.error _ => Decision.deny
    | Except.ok false => Decision.deny
    | Except.ok true => Decision.allow

/-- Modelled from the spec: the guard handed to `HandleCreate`, whose `Enforce` lets
the request go on exactly when the decision of `enforce` is allow. -/
def specGuard (policy : Policy) : Guard :=
  { Enforce := fun r scope resource permission =>
      decide (enforce policy r.principal scope resource permission = Decision.allow) }

/-- The event is a call of `guard.Enforce`. -/
def Event.isEnforce : Event → Bool
  | Event.Enforce _ _ _ => true
  | _ => false

/-- The local variable `parentPath` of the handler once authorization has passed: empty
without a parent, the `Path` of the parent found by the store otherwise. -/
def IsParentPath (store : SpaceStore) (req : spaceCreateRequest) (parentPath : String) : Prop :=
  (req.ParentID ≤ 0 ∧ parentPath = "")
  ∨ ∃ parent, 0 < req.ParentID ∧ store.Find req.ParentID = (some parent, none)
      ∧ parentPath = parent.Path

/-! ## A concrete setting: the create scenario of the spec -/

/-- The stored top-level space `team-a`. -/
def teamA : Space :=
  { Path := "team-a", PathName := "team-a", ParentID := 0, Name := "Team A",
    Description := "", IsPublic := false, CreatedBy := 1, Created := 0, Updated := 0 }

/-- A store that holds `team-a` under the identifier 1 and accepts every create. -/
def demoStore : SpaceStore :=
  { Find := fun id => if id = 1 then (some teamA, none) else (none, some "space not found")
    Create := fun space => (space, none) }

/-- A store whose backend is unavailable. -/
def downStore : SpaceStore :=
  { Find := fun _ => (none, some "backend unavailable")
    Create := fun space => (space, some "backend unavailable") }

/-- Externals whose validators accept every node and every path. -/
def demoExternals : Externals :=
  { ToLower := String.toLower
    checkSpace := fun _ => none
    checkPath := fun _ _ => none
    nowCreated := 1700000000000
    nowUpdated := 1700000000000
    PathSeparator := "/" }

/-- A policy under which every permission requires an identified actor and only
the principal 1 is allowed. -/
def demoPolicy : Policy :=
  { requiresIdentified := fun _ => true
    evaluate := fun principal _ _ _ =>
      match principal with
      | some p => Except.ok (decide (p.ID = 1))
      | none => Except.ok false }

/-- The body asking for the space `proj` under the space 1. -/
def childBody : spaceCreateRequest :=
  { PathName := "proj", ParentID := 1, Name := "Proj", Description := "", IsPublic := false }

/-- The request of principal 2 to create `proj` under the space 1. -/
def childRequest : Request :=
  { body := Except.ok childBody, principal := some { ID := 2 } }

/-- The request of principal 1 to create `proj` under the space 1. -/
def ownerChildRequest : Request :=
  { body := Except.ok childBody, principal := some { ID := 1 } }

/-- The request of an anonymous caller to create `proj` under the space 1. -/
def anonymousChildRequest : Request :=
  { body := Except.ok childBody, principal := none }

/-- A policy under which no permission requires an identified actor and every
check is allowed. -/
def openPolicy : Policy :=
  { requiresIdentified := fun _ => false
    evaluate := fun _ _ _ _ => Except.ok true }

/-- The body asking for the top-level space `team-a`. -/
def topBody : spaceCreateRequest :=
  { PathName := "team-a", ParentID := 0, Name := "Team A", Description := "", IsPublic := false }

/-- The request of principal 1 to create the top-level space `team-a`. -/
def topRequest : Request :=
  { body := Except.ok topBody, principal := some { ID := 1 } }

/-- The request of an anonymous caller to create the top-level space `team-a`. -/
def anonymousTopRequest : Request :=
  { body := Except.ok topBody, principal := none }

end SpaceHandler

namespace Hooks

/-! ## Reading lines -/

theorem cutAfter_line (delim : Byte) (l rest : List Byte) (h : delim ∉ l) :
    cutAfter delim (l ++ delim :: rest) = some (l ++ [delim], rest) := by
  induction l with
  | nil => simp [cutAfter]
  | cons b bs ih =>
    have hb : ¬ b = delim := fun e => h (by simp [e])
    have hbs : delim ∉ bs := fun m => h (List.mem_cons_of_mem _ m)
    simp [cutAfter, hb, ih hbs]

theorem cutAfter_none (delim : Byte) (l : List Byte) (h : delim ∉ l) :
    cutAfter delim l = none := by
  induction l with
  | nil => rfl
  | cons b bs ih =>
    have hb : ¬ b = delim := fun e => h (by simp [e])
    have hbs : delim ∉ bs := fun m => h (List.mem_cons_of_mem _ m)
    simp [cutAfter, hb, ih hbs]

theorem readLines_unlines (ls : List (List Byte)) (rest : List Byte) (term : IOError)
    (hls : ∀ l ∈ ls, LF ∉ l) (hrest : LF ∉ rest) :
    ∀ (fuel : Nat) (acc : List (List Byte)), ls.length < fuel →
      readLines fuel ⟨unlines ls ++ rest, term⟩ acc
        = some (readEnd (acc ++ ls.map (fun l => l ++ [LF])) term) := by
  induction ls with
  | nil =>
    intro fuel acc hf
    obtain ⟨n, rfl⟩ : ∃ n, fuel = n + 1 := ⟨fuel - 1, by simp at hf; omega⟩
    cases term <;> simp [readLines, ReadString, unlines, cutAfter_none LF rest hrest, readEnd]
  | cons l ls ih =>
    intro fuel acc hf
    obtain ⟨n, rfl⟩ : ∃ n, fuel = n + 1 := ⟨fuel - 1, by simp at hf; omega⟩
    have hl : LF ∉ l := hls l (by simp)
    have hls2 : ∀ x ∈ ls, LF ∉ x := fun x hx => hls x (List.mem_cons_of_mem _ hx)
    have hcut : cutAfter LF (unlines (l :: ls) ++ rest)
        = some (l ++ [LF], unlines ls ++ rest) := by
      have := cutAfter_line LF l (unlines ls ++ rest) hl
      simpa [unlines] using this
    have hn : ls.length < n := by simp at hf; omega
    simp only [readLines, ReadString, hcut]
    rw [ih hls2 n (acc ++ [l ++ [LF]]) hn]
    simp

theorem length_le_unlines (ls : List (List Byte)) : ls.length ≤ (unlines ls).length := by
  induction ls with
  | nil => simp [unlines]
  | cons l ls ih => simp [unlines]; omega

/-! ## Splitting a line -/

theorem Split_ne_nil (s : List Byte) (sep : Byte) : Split s sep ≠ [] := by
  induction s with
  | nil => simp [Split]
  | cons c cs ih =>
    unfold Split
    split
    · simp
    · split <;> simp

theorem Split_single (f : List Byte) (sep : Byte) (h : sep ∉ f) : Split f sep = [f] := by
  induction f with
  | nil => rfl
  | cons c cs ih =>
    have hc : ¬ c = sep := fun e => h (by simp [e])
    have hcs : sep ∉ cs := fun m => h (List.mem_cons_of_mem _ m)
    simp [Split, hc, ih hcs]

theorem Split_field (f rest : List Byte) (sep : Byte) (h : sep ∉ f) :
    Split (f ++ sep :: rest) sep = f :: Split rest sep := by
  induction f with
  | nil => simp [Split]
  | cons c cs ih =>
    have hc : ¬ c = sep := fun e => h (by simp [e])
    have hcs : sep ∉ cs := fun m => h (List.mem_cons_of_mem _ m)
    simp [Split, hc, ih hcs]

theorem Split_length (s : List Byte) (sep : Byte) :
    (Split s sep).length = s.count sep + 1 := by
  induction s with
  | nil => simp [Split]
  | cons c cs ih =>
    by_cases hc : c = sep
    · subst hc
      simp [Split, ih]
    · have hne : (c == sep) = false := by simpa using hc
      unfold Split
      simp only [hc, if_false]
      cases hsp : Split cs sep with
      | nil => exact absurd hsp (Split_ne_nil cs sep)
      | cons f fs =>
        rw [hsp] at ih
        simp [List.count_cons, hne] at ih ⊢
        omega

/-! ## Processing the lines -/

theorem SP_ne_LF : SP ≠ LF := by decide

theorem LF_not_mem_refLine (t : List Byte × List Byte × List Byte) (h : tripleOk t) :
    LF ∉ refLine t := by
  obtain ⟨h1, h2, h3⟩ := h
  have hne : ¬ LF = SP := fun e => SP_ne_LF e.symm
  simp [refLine, h1.2, h2.2, h3.2, hne]

theorem Split_refLine (t : List Byte × List Byte × List Byte) (h : tripleOk t) :
    Split (refLine t ++ [LF]) SP = [t.1, t.2.1, t.2.2 ++ [LF]] := by
  obtain ⟨h1, h2, h3⟩ := h
  have hlast : SP ∉ t.2.2 ++ [LF] := by
    simp [h3.1, SP_ne_LF]
  have e : refLine t ++ [LF] = t.1 ++ SP :: (t.2.1 ++ SP :: (t.2.2 ++ [LF])) := by
    simp [refLine]
  rw [e, Split_field _ _ _ h1.1, Split_field _ _ _ h2.1, Split_single _ _ hlast]

theorem parseLines_wellformed (ts : List (List Byte × List Byte × List Byte))
    (h : ∀ t ∈ ts, tripleOk t) (acc : List updatedRefData) :
    parseLines (ts.map (fun t => refLine t ++ [LF])) acc = (acc ++ ts.map entryOf, none) := by
  induction ts generalizing acc with
  | nil => simp [parseLines]
  | cons t ts ih =>
    have ht : tripleOk t := h t (by simp)
    have hts : ∀ x ∈ ts, tripleOk x := fun x hx => h x (List.mem_cons_of_mem _ hx)
    simp only [List.map_cons, parseLines, Split_refLine t ht]
    simp [ih hts, entryOf]

theorem parseLines_malformed (ls : List (List Byte))
    (h : ∃ l ∈ ls, (Split l SP).length ≠ 3) (acc : List updatedRefData) :
    ∃ err, parseLines ls acc = ([], some err) := by
  induction ls generalizing acc with
  | nil => simp at h
  | cons l ls ih =>
    by_cases hl : (Split l SP).length = 3
    · have hrest : ∃ x ∈ ls, (Split x SP).length ≠ 3 := by
        obtain ⟨x, hx, hbad⟩ := h
        rcases List.mem_cons.mp hx with rfl | hx
        · exact absurd hl hbad
        · exact ⟨x, hx, hbad⟩
      obtain ⟨err, he⟩ := ih hrest (acc ++ [{
        oldCommit := (Split l SP).getD 0 []
        newCommit := (Split l SP).getD 1 []
        branch := (Split l SP).getD 2 [] }])
      refine ⟨err, ?_⟩
      rw [parseLines]
      simp only [hl, ne_eq, not_true_eq_false, if_false]
      exact he
    · exact ⟨HookError.invalidFormat (Split l SP), by simp [parseLines, hl]⟩

/-- Every byte sequence is a run of LF-terminated lines followed by a rest without LF. -/
theorem exists_unlines (s : List Byte) :
    ∃ ls rest, s = unlines ls ++ rest ∧ (∀ l ∈ ls, LF ∉ l) ∧ LF ∉ rest := by
  induction s with
  | nil => exact ⟨[], [], rfl, by simp, by simp⟩
  | cons b bs ih =>
    obtain ⟨ls, rest, hs, hls, hrest⟩ := ih
    by_cases hb : b = LF
    · exact ⟨[] :: ls, rest, by simp [unlines, hs, hb], by simpa using hls, hrest⟩
    · cases ls with
      | nil =>
        refine ⟨[], b :: rest, by simp [unlines, hs], by simp, ?_⟩
        simp only [List.mem_cons, not_or]
        exact ⟨fun e => hb e.symm, hrest⟩
      | cons l ls =>
        refine ⟨(b :: l) :: ls, rest, by simp [unlines, hs], ?_, hrest⟩
        intro x hx
        rcases List.mem_cons.mp hx with rfl | hx
        · simp only [List.mem_cons, not_or]
          exact ⟨fun e => hb e.symm, hls l (by simp)⟩
        · exact hls x (List.mem_cons_of_mem _ hx)

/-- The result of the whole function on a stream cut into its lines. -/
theorem getUpdatedReferencesFromStdIn_unlines (ls : List (List Byte)) (rest : List Byte)
    (term : IOError) (hls : ∀ l ∈ ls, LF ∉ l) (hrest : LF ∉ rest) :
    getUpdatedReferencesFromStdIn ⟨unlines ls ++ rest, term⟩
      = match term with
        | IOError.EOF => some (parseLines (ls.map (fun l => l ++ [LF])) [])
        | err => some ([], some (HookError.read err)) := by
  have hf : ls.length < (unlines ls ++ rest).length + 1 := by
    have := length_le_unlines ls
    simp only [List.length_append]
    omega
  unfold getUpdatedReferencesFromStdIn getUpdatedReferencesFromStdInFuel
  simp only [readLines_unlines ls rest term hls hrest _ [] hf]
  cases term <;> simp [readEnd]

/-- The read loop always finishes within the fuel the model gives it. -/
theorem getUpdatedReferencesFromStdIn_isSome (stdin : Reader) :
    (getUpdatedReferencesFromStdIn stdin).isSome = true := by
  obtain ⟨pending, term⟩ := stdin
  obtain ⟨ls, rest, rfl, hls, hrest⟩ := exists_unlines pending
  rw [getUpdatedReferencesFromStdIn_unlines ls rest term hls hrest]
  cases term <;> rfl

/-! ## The claims on `getUpdatedReferencesFromStdIn` -/

theorem unlines_refLines_result (ts : List (List Byte × List Byte × List Byte))
    (rest : List Byte) (h : ∀ t ∈ ts, tripleOk t) (hrest : LF ∉ rest) :
    getUpdatedReferencesFromStdIn ⟨unlines (ts.map refLine) ++ rest, IOError.EOF⟩
      = some (ts.map entryOf, none) := by
  have hls : ∀ l ∈ ts.map refLine, LF ∉ l := by
    intro l hl
    obtain ⟨t, ht, rfl⟩ := List.mem_map.mp hl
    exact LF_not_mem_refLine t (h t ht)
  rw [getUpdatedReferencesFromStdIn_unlines _ rest IOError.EOF hls hrest]
  have hmap : (ts.map refLine).map (fun l => l ++ [LF]) = ts.map (fun t => refLine t ++ [LF]) := by
    rw [List.map_map]; rfl
  simp only [hmap, parseLines_wellformed ts h [], List.nil_append]

/-- C1: for an input of N lines, each terminated by LF and made of three fields
separated by two spaces, `getUpdatedReferencesFromStdIn` returns no error and
exactly N entries, and the i-th entry holds the first field of the i-th line as
`oldCommit` and the second as `newCommit` (N = 0 gives no entry and no error). -/
theorem C1_wellformed_input_parsed (ts : List (List Byte × List Byte × List Byte))
    (h : ∀ t ∈ ts, tripleOk t) :
    ∃ refs, getUpdatedReferencesFromStdIn ⟨unlines (ts.map refLine), IOError.EOF⟩
        = some (refs, none)
      ∧ refs.length = ts.length
      ∧ ∀ (i : Nat) (hi : i < ts.length),
          (refs[i]?).map (fun e => (e.oldCommit, e.newCommit)) = some (ts[i].1, ts[i].2.1) := by
  refine ⟨ts.map entryOf, ?_, by simp, ?_⟩
  · have := unlines_refLines_result ts [] h (by simp)
    simpa using this
  · intro i hi
    simp [List.getElem?_map, List.getElem?_eq_getElem hi, entryOf]

theorem C1_wellformed_input_parsed_witness :
    (∀ t ∈ [(([97], [98], [99]) : List Byte × List Byte × List Byte), ([100], [101], [102])],
        tripleOk t)
    ∧ ∃ refs, getUpdatedReferencesFromStdIn
          ⟨unlines ([(([97], [98], [99]) : List Byte × List Byte × List Byte),
            ([100], [101], [102])].map refLine), IOError.EOF⟩ = some (refs, none)
      ∧ refs.length = 2
      ∧ ∀ (i : Nat) (hi : i < 2),
          (refs[i]?).map (fun e => (e.oldCommit, e.newCommit))
            = some (([(([97], [98], [99]) : List Byte × List Byte × List Byte),
                ([100], [101], [102])][i]).1,
              ([(([97], [98], [99]) : List Byte × List Byte × List Byte),
                ([100], [101], [102])][i]).2.1) :=
  ⟨by simp [tripleOk, fieldOk, SP, LF],
   C1_wellformed_input_parsed [([97], [98], [99]), ([100], [101], [102])]
     (by simp [tripleOk, fieldOk, SP, LF])⟩

/-- C2: when some LF-terminated line of the input does not hold exactly two spaces
(so that it does not split into three fields), `getUpdatedReferencesFromStdIn`
returns an error and no entry, whatever the other lines are, wherever the line
stands, and however the stream ends. -/
theorem C2_malformed_line_rejected (ls : List (List Byte)) (rest : List Byte) (term : IOError)
    (hls : ∀ l ∈ ls, LF ∉ l) (hrest : LF ∉ rest) (hbad : ∃ l ∈ ls, l.count SP ≠ 2) :
    ∃ err, getUpdatedReferencesFromStdIn ⟨unlines ls ++ rest, term⟩ = some ([], some err) := by
  rw [getUpdatedReferencesFromStdIn_unlines ls rest term hls hrest]
  cases term with
  | other msg => exact ⟨HookError.read (IOError.other msg), rfl⟩
  | EOF =>
    have hbad2 : ∃ l ∈ ls.map (fun l => l ++ [LF]), (Split l SP).length ≠ 3 := by
      obtain ⟨l, hl, hc⟩ := hbad
      refine ⟨l ++ [LF], List.mem_map.mpr ⟨l, hl, rfl⟩, ?_⟩
      have hne : (LF == SP) = false := by decide
      rw [Split_length]
      simp [List.count_append, List.count_cons, hne]
      exact hc
    obtain ⟨err, he⟩ := parseLines_malformed _ hbad2 []
    exact ⟨err, by simp [he]⟩

theorem C2_malformed_line_rejected_witness :
    (∀ l ∈ [([97, 32, 98, 32, 99] : List Byte), [100, 32, 101], [102, 32, 103, 32, 104]],
        LF ∉ l)
    ∧ LF ∉ ([] : List Byte)
    ∧ (∃ l ∈ [([97, 32, 98, 32, 99] : List Byte), [100, 32, 101], [102, 32, 103, 32, 104]],
        l.count SP ≠ 2)
    ∧ ∃ err, getUpdatedReferencesFromStdIn
        ⟨unlines [[97, 32, 98, 32, 99], [100, 32, 101], [102, 32, 103, 32, 104]] ++ [],
          IOError.EOF⟩ = some ([], some err) :=
  ⟨by decide, by decide, by decide,
   C2_malformed_line_rejected [[97, 32, 98, 32, 99], [100, 32, 101], [102, 32, 103, 32, 104]]
     [] IOError.EOF (by decide) (by decide) (by decide)⟩

/-- C3: on the well-formed one-line input `a SP b SP c LF` the entry produced has the
branch field `c LF`: the LF that ends the line is kept in the field, which is
therefore not the ref name `c` of the line. -/
theorem C3_branch_keeps_newline :
    ∃ e, getUpdatedReferencesFromStdIn ⟨[97, 32, 98, 32, 99, 10], IOError.EOF⟩
        = some ([e], none)
      ∧ e.oldCommit = [97] ∧ e.newCommit = [98]
      ∧ e.branch = [99, 10] ∧ e.branch ≠ [99] ∧ LF ∈ e.branch :=
  ⟨{ oldCommit := [97], newCommit := [98], branch := [99, 10] }, by decide⟩

/-- C4, as stated, fails: on the input `a SP b SP c LF d SP e SP f` whose second
line ends at the end of the input without LF, the result holds one entry, for the
first line only, and not two. -/
theorem C4_unterminated_line_dropped :
    getUpdatedReferencesFromStdIn
        ⟨[97, 32, 98, 32, 99, 10, 100, 32, 101, 32, 102], IOError.EOF⟩
      = some ([{ oldCommit := [97], newCommit := [98], branch := [99, 10] }], none)
    ∧ ¬ ∃ refs err, getUpdatedReferencesFromStdIn
          ⟨[97, 32, 98, 32, 99, 10, 100, 32, 101, 32, 102], IOError.EOF⟩ = some (refs, err)
        ∧ refs.length = 2 := by
  refine ⟨by decide, ?_⟩
  rintro ⟨refs, err, h, hlen⟩
  have h2 : getUpdatedReferencesFromStdIn
        ⟨[97, 32, 98, 32, 99, 10, 100, 32, 101, 32, 102], IOError.EOF⟩
      = some ([{ oldCommit := [97], newCommit := [98], branch := [99, 10] }], none) := by
    decide
  rw [h2] at h
  simp only [Option.some.injEq, Prod.mk.injEq] at h
  rw [← h.1] at hlen
  simp at hlen

/-- C4, amended: when the LF-terminated lines are well-formed and the final line
of three fields is followed by the end of the input without LF, the final line is
dropped: the result is the one for the input without that line, with no error and
one entry per LF-terminated line. -/
theorem C4_unterminated_line_ignored (ts : List (List Byte × List Byte × List Byte))
    (last : List Byte × List Byte × List Byte)
    (h : ∀ t ∈ ts, tripleOk t) (hlast : tripleOk last) :
    getUpdatedReferencesFromStdIn ⟨unlines (ts.map refLine) ++ refLine last, IOError.EOF⟩
        = getUpdatedReferencesFromStdIn ⟨unlines (ts.map refLine), IOError.EOF⟩
      ∧ ∃ refs, getUpdatedReferencesFromStdIn
            ⟨unlines (ts.map refLine) ++ refLine last, IOError.EOF⟩ = some (refs, none)
          ∧ refs.length = ts.length := by
  have h1 := unlines_refLines_result ts (refLine last) h (LF_not_mem_refLine last hlast)
  have h2 := unlines_refLines_result ts [] h (by simp)
  simp only [List.append_nil] at h2
  exact ⟨h1.trans h2.symm, ts.map entryOf, h1, by simp⟩

theorem C4_unterminated_line_ignored_witness :
    (∀ t ∈ [(([97], [98], [99]) : List Byte × List Byte × List Byte)], tripleOk t)
    ∧ tripleOk (([100], [101], [102]) : List Byte × List Byte × List Byte)
    ∧ getUpdatedReferencesFromStdIn
          ⟨unlines ([(([97], [98], [99]) : List Byte × List Byte × List Byte)].map refLine)
            ++ refLine ([100], [101], [102]), IOError.EOF⟩
        = getUpdatedReferencesFromStdIn
          ⟨unlines ([(([97], [98], [99]) : List Byte × List Byte × List Byte)].map refLine),
            IOError.EOF⟩
    ∧ ∃ refs, getUpdatedReferencesFromStdIn
          ⟨unlines ([(([97], [98], [99]) : List Byte × List Byte × List Byte)].map refLine)
            ++ refLine ([100], [101], [102]), IOError.EOF⟩ = some (refs, none)
        ∧ refs.length = 1 :=
  ⟨by simp [tripleOk, fieldOk, SP, LF], by simp [tripleOk, fieldOk, SP, LF],
   C4_unterminated_line_ignored [([97], [98], [99])] ([100], [101], [102])
     (by simp [tripleOk, fieldOk, SP, LF]) (by simp [tripleOk, fieldOk, SP, LF])⟩

end Hooks

namespace SpaceHandler

/-! ## The runs of `HandleCreate`, case by case -/

theorem HandleCreate_anonymous_top (guard : Guard) (store : SpaceStore) (ext : Externals)
    (r : Request) (req : spaceCreateRequest) (hreq : r.body = Except.ok req)
    (hpar : req.ParentID ≤ 0) (hp : r.principal = none) :
    HandleCreate guard store ext r
      = ⟨[Event.render Response.Unauthorized], Outcome.returned⟩ := by
  simp [HandleCreate, hreq, hpar, hp]

theorem HandleCreate_top (guard : Guard) (store : SpaceStore) (ext : Externals)
    (r : Request) (req : spaceCreateRequest) (p : Principal) (hreq : r.body = Except.ok req)
    (hpar : req.ParentID ≤ 0) (hp : r.principal = some p) :
    HandleCreate guard store ext r = createSpace store ext req (some p) "" [] := by
  simp [HandleCreate, hreq, hpar, hp]

theorem HandleCreate_find_error (guard : Guard) (store : SpaceStore) (ext : Externals)
    (r : Request) (req : spaceCreateRequest) (err : Error) (hreq : r.body = Except.ok req)
    (hpar : 0 < req.ParentID) (hfind : (store.Find req.ParentID).2 = some err) :
    HandleCreate guard store ext r
      = ⟨[Event.Find req.ParentID, Event.render (Response.UserfiedErrorOrInternal err)],
          Outcome.returned⟩ := by
  have hnot : ¬ req.ParentID ≤ 0 := not_le.mpr hpar
  rcases hf : store.Find req.ParentID with ⟨parent, e⟩
  rw [hf] at hfind
  simp only at hfind
  subst hfind
  simp [HandleCreate, hreq, hnot, hf]

theorem HandleCreate_denied (guard : Guard) (store : SpaceStore) (ext : Externals)
    (r : Request) (req : spaceCreateRequest) (parent : Space) (hreq : r.body = Except.ok req)
    (hpar : 0 < req.ParentID) (hfind : store.Find req.ParentID = (some parent, none))
    (hdeny : guard.Enforce r { SpacePath := parent.Path }
      { Type_ := ResourceType.ResourceTypeSpace, Name := "" }
      Permission.PermissionSpaceCreate = false) :
    HandleCreate guard store ext r
      = ⟨[Event.Find req.ParentID,
          Event.Enforce { SpacePath := parent.Path }
            { Type_ := ResourceType.ResourceTypeSpace, Name := "" }
            Permission.PermissionSpaceCreate], Outcome.returned⟩ := by
  have hnot : ¬ req.ParentID ≤ 0 := not_le.mpr hpar
  simp [HandleCreate, hreq, hnot, hfind, hdeny]

theorem HandleCreate_allowed (guard : Guard) (store : SpaceStore) (ext : Externals)
    (r : Request) (req : spaceCreateRequest) (parent : Space) (hreq : r.body = Except.ok req)
    (hpar : 0 < req.ParentID) (hfind : store.Find req.ParentID = (some parent, none))
    (hallow : guard.Enforce r { SpacePath := parent.Path }
      { Type_ := ResourceType.ResourceTypeSpace, Name := "" }
      Permission.PermissionSpaceCreate = true) :
    HandleCreate guard store ext r
      = createSpace store ext req r.principal parent.Path
          [Event.Find req.ParentID,
            Event.Enforce { SpacePath := parent.Path }
              { Type_ := ResourceType.ResourceTypeSpace, Name := "" }
              Permission.PermissionSpaceCreate] := by
  have hnot : ¬ req.ParentID ≤ 0 := not_le.mpr hpar
  simp [HandleCreate, hreq, hnot, hfind, hallow]

theorem createSpace_nil_principal (store : SpaceStore) (ext : Externals)
    (req : spaceCreateRequest) (parentPath : String) (done : List Event) :
    createSpace store ext req none parentPath done = ⟨done, Outcome.nilPrincipal⟩ := rfl

theorem createSpace_checkSpace_error (store : SpaceStore) (ext : Externals)
    (req : spaceCreateRequest) (p : Principal) (parentPath : String) (done : List Event)
    (err : Error) (h1 : ext.checkSpace (newSpace ext req p) = some err) :
    createSpace store ext req (some p) parentPath done
      = ⟨done ++ [Event.checkSpace (newSpace ext req p),
            Event.render (Response.UserfiedErrorOrInternal err)], Outcome.returned⟩ := by
  simp [createSpace, h1]

theorem createSpace_checkPath_error (store : SpaceStore) (ext : Externals)
    (req : spaceCreateRequest) (p : Principal) (parentPath : String) (done : List Event)
    (err : Error) (h1 : ext.checkSpace (newSpace ext req p) = none)
    (h2 : ext.checkPath
      (Concatinate ext.PathSeparator parentPath (ext.ToLower req.PathName)) true = some err) :
    createSpace store ext req (some p) parentPath done
      = ⟨done ++ [Event.checkSpace (newSpace ext req p),
            Event.checkPath
              (Concatinate ext.PathSeparator parentPath (ext.ToLower req.PathName)) true,
            Event.render (Response.UserfiedErrorOrInternal err)], Outcome.returned⟩ := by
  have h2b : ext.checkPath
      (Concatinate ext.PathSeparator parentPath (newSpace ext req p).PathName) true
        = some err := h2
  simp only [createSpace, h1, h2b]
  rfl

theorem createSpace_Create_error (store : SpaceStore) (ext : Externals)
    (req : spaceCreateRequest) (p : Principal) (parentPath : String) (done : List Event)
    (stored : Space) (err : Error) (h1 : ext.checkSpace (newSpace ext req p) = none)
    (h2 : ext.checkPath
      (Concatinate ext.PathSeparator parentPath (ext.ToLower req.PathName)) true = none)
    (h3 : store.Create (newSpace ext req p) = (stored, some err)) :
    createSpace store ext req (some p) parentPath done
      = ⟨done ++ [Event.checkSpace (newSpace ext req p),
            Event.checkPath
              (Concatinate ext.PathSeparator parentPath (ext.ToLower req.PathName)) true,
            Event.Create (newSpace ext req p),
            Event.render (Response.UserfiedErrorOrInternal err)], Outcome.returned⟩ := by
  have h2b : ext.checkPath
      (Concatinate ext.PathSeparator parentPath (newSpace ext req p).PathName) true
        = none := h2
  simp only [createSpace, h1, h2b, h3]
  rfl

theorem createSpace_stored (store : SpaceStore) (ext : Externals)
    (req : spaceCreateRequest) (p : Principal) (parentPath : String) (done : List Event)
    (stored : Space) (h1 : ext.checkSpace (newSpace ext req p) = none)
    (h2 : ext.checkPath
      (Concatinate ext.PathSeparator parentPath (ext.ToLower req.PathName)) true = none)
    (h3 : store.Create (newSpace ext req p) = (stored, none)) :
    createSpace store ext req (some p) parentPath done
      = ⟨done ++ [Event.checkSpace (newSpace ext req p),
            Event.checkPath
              (Concatinate ext.PathSeparator parentPath (ext.ToLower req.PathName)) true,
            Event.Create (newSpace ext req p),
            Event.render (Response.JSON 200 stored)], Outcome.returned⟩ := by
  have h2b : ext.checkPath
      (Concatinate ext.PathSeparator parentPath (newSpace ext req p).PathName) true
        = none := h2
  simp only [createSpace, h1, h2b, h3]
  rfl

/-- The four ways `createSpace` ends for a present principal. -/
theorem createSpace_cases (store : SpaceStore) (ext : Externals)
    (req : spaceCreateRequest) (p : Principal) (parentPath : String) (done : List Event) :
    (∃ err, ext.checkSpace (newSpace ext req p) = some err
      ∧ createSpace store ext req (some p) parentPath done
        = ⟨done ++ [Event.checkSpace (newSpace ext req p),
            Event.render (Response.UserfiedErrorOrInternal err)], Outcome.returned⟩)
    ∨ (∃ err, ext.checkSpace (newSpace ext req p) = none
      ∧ ext.checkPath
          (Concatinate ext.PathSeparator parentPath (ext.ToLower req.PathName)) true = some err
      ∧ createSpace store ext req (some p) parentPath done
        = ⟨done ++ [Event.checkSpace (newSpace ext req p),
            Event.checkPath
              (Concatinate ext.PathSeparator parentPath (ext.ToLower req.PathName)) true,
            Event.render (Response.UserfiedErrorOrInternal err)], Outcome.returned⟩)
    ∨ (∃ response, ext.checkSpace (newSpace ext req p) = none
      ∧ ext.checkPath
          (Concatinate ext.PathSeparator parentPath (ext.ToLower req.PathName)) true = none
      ∧ (∀ status s, response ≠ Response.JSON status s
          ∨ (store.Create (newSpace ext req p)).2 = none)
      ∧ createSpace store ext req (some p) parentPath done
        = ⟨done ++ [Event.checkSpace (newSpace ext req p),
            Event.checkPath
              (Concatinate ext.PathSeparator parentPath (ext.ToLower req.PathName)) true,
            Event.Create (newSpace ext req p),
            Event.render response], Outcome.returned⟩) := by
  cases h1 : ext.checkSpace (newSpace ext req p) with
  | some err => exact Or.inl ⟨err, rfl, createSpace_checkSpace_error _ _ _ _ _ _ _ h1⟩
  | none =>
    cases h2 : ext.checkPath
        (Concatinate ext.PathSeparator parentPath (ext.ToLower req.PathName)) true with
    | some err =>
      exact Or.inr (Or.inl ⟨err, rfl, rfl, createSpace_checkPath_error _ _ _ _ _ _ _ h1 h2⟩)
    | none =>
      rcases h3 : store.Create (newSpace ext req p) with ⟨stored, _ | err⟩
      · exact Or.inr (Or.inr ⟨Response.JSON 200 stored, rfl, rfl, fun _ _ => Or.inr rfl,
          createSpace_stored _ _ _ _ _ _ _ h1 h2 h3⟩)
      · exact Or.inr (Or.inr ⟨Response.UserfiedErrorOrInternal err, rfl, rfl,
          fun _ _ => Or.inl (by simp), createSpace_Create_error _ _ _ _ _ _ _ _ h1 h2 h3⟩)

/-! ## The claims on `HandleCreate` -/

/-- C5: for a request with `ParentID > 0`, when `spaceStore.Find` returns an error or
`guard.Enforce` returns false, the handler returns without calling
`spaceStore.Create` and without rendering the success response; when `Find`
returns an error, `guard.Enforce` is not called either. -/
theorem C5_fail_closed (guard : Guard) (store : SpaceStore) (ext : Externals) (r : Request)
    (req : spaceCreateRequest) (hreq : r.body = Except.ok req) (hpar : 0 < req.ParentID)
    (hfail : (∃ err, (store.Find req.ParentID).2 = some err)
      ∨ ∃ parent, store.Find req.ParentID = (some parent, none)
          ∧ guard.Enforce r { SpacePath := parent.Path }
              { Type_ := ResourceType.ResourceTypeSpace, Name := "" }
              Permission.PermissionSpaceCreate = false) :
    (∀ s, Event.Create s ∉ (HandleCreate guard store ext r).trace)
    ∧ (∀ status s,
        Event.render (Response.JSON status s) ∉ (HandleCreate guard store ext r).trace)
    ∧ (HandleCreate guard store ext r).outcome = Outcome.returned
    ∧ ((∃ err, (store.Find req.ParentID).2 = some err) →
        ∀ scope resource permission,
          Event.Enforce scope resource permission ∉ (HandleCreate guard store ext r).trace) := by
  rcases hfail with ⟨err, hfind⟩ | ⟨parent, hfind, hdeny⟩
  · rw [HandleCreate_find_error guard store ext r req err hreq hpar hfind]
    simp
  · rw [HandleCreate_denied guard store ext r req parent hreq hpar hfind hdeny]
    refine ⟨by simp, by simp, rfl, ?_⟩
    rintro ⟨err, he⟩
    rw [hfind] at he
    simp at he

theorem C5_fail_closed_witness :
    childRequest.body = Except.ok childBody ∧ 0 < childBody.ParentID
    ∧ ((∃ err, (downStore.Find childBody.ParentID).2 = some err)
      ∨ ∃ parent, downStore.Find childBody.ParentID = (some parent, none)
          ∧ (specGuard demoPolicy).Enforce childRequest { SpacePath := parent.Path }
              { Type_ := ResourceType.ResourceTypeSpace, Name := "" }
              Permission.PermissionSpaceCreate = false)
    ∧ (∀ s, Event.Create s
        ∉ (HandleCreate (specGuard demoPolicy) downStore demoExternals childRequest).trace)
    ∧ (∀ status s, Event.render (Response.JSON status s)
        ∉ (HandleCreate (specGuard demoPolicy) downStore demoExternals childRequest).trace)
    ∧ (HandleCreate (specGuard demoPolicy) downStore demoExternals childRequest).outcome
        = Outcome.returned
    ∧ ((∃ err, (downStore.Find childBody.ParentID).2 = some err) →
        ∀ scope resource permission, Event.Enforce scope resource permission
          ∉ (HandleCreate (specGuard demoPolicy) downStore demoExternals childRequest).trace) :=
  ⟨rfl, by decide, Or.inl ⟨"backend unavailable", rfl⟩,
   C5_fail_closed (specGuard demoPolicy) downStore demoExternals childRequest childBody rfl
     (by decide) (Or.inl ⟨"backend unavailable", rfl⟩)⟩

/-- C6: for a decoded request with no parent (`ParentID <= 0`) and a nil principal,
the handler renders the unauthorized response and does nothing else: the only call
of the run is `render.Unauthorized`, so that `Find`, `Enforce`, the validators and
`Create` are not called. -/
theorem C6_anonymous_top_level (guard : Guard) (store : SpaceStore) (ext : Externals)
    (r : Request) (req : spaceCreateRequest) (hreq : r.body = Except.ok req)
    (hpar : req.ParentID ≤ 0) (hp : r.principal = none) :
    HandleCreate guard store ext r
      = ⟨[Event.render Response.Unauthorized], Outcome.returned⟩ :=
  HandleCreate_anonymous_top guard store ext r req hreq hpar hp

theorem C6_anonymous_top_level_witness :
    anonymousTopRequest.body = Except.ok topBody ∧ topBody.ParentID ≤ 0
    ∧ anonymousTopRequest.principal = none
    ∧ HandleCreate (specGuard demoPolicy) demoStore demoExternals anonymousTopRequest
        = ⟨[Event.render Response.Unauthorized], Outcome.returned⟩ :=
  ⟨rfl, by decide, rfl,
   C6_anonymous_top_level (specGuard demoPolicy) demoStore demoExternals anonymousTopRequest
     topBody rfl (by decide) rfl⟩

/-- C7: for a request with `ParentID > 0` for which `spaceStore.Find` returns a parent,
`guard.Enforce` is called exactly once, with the scope of the parent's `Path` (which
no string field of the request enters), the resource of type space with the empty
name and the permission `PermissionSpaceCreate`; and every path handed to
`check.Path` is `paths.Concatinate` of that same parent `Path` and the lower-cased
path name. -/
theorem C7_scope_is_parent_path (guard : Guard) (store : SpaceStore) (ext : Externals)
    (r : Request) (req : spaceCreateRequest) (parent : Space)
    (hreq : r.body = Except.ok req) (hpar : 0 < req.ParentID)
    (hfind : store.Find req.ParentID = (some parent, none)) :
    (HandleCreate guard store ext r).trace.filter Event.isEnforce
      = [Event.Enforce { SpacePath := parent.Path }
          { Type_ := ResourceType.ResourceTypeSpace, Name := "" }
          Permission.PermissionSpaceCreate]
    ∧ ∀ path isSpace, Event.checkPath path isSpace ∈ (HandleCreate guard store ext r).trace →
        path = Concatinate ext.PathSeparator parent.Path (ext.ToLower req.PathName)
          ∧ isSpace = true := by
  cases hen : guard.Enforce r { SpacePath := parent.Path }
      { Type_ := ResourceType.ResourceTypeSpace, Name := "" }
      Permission.PermissionSpaceCreate with
  | false =>
    rw [HandleCreate_denied guard store ext r req parent hreq hpar hfind hen]
    simp [Event.isEnforce]
  | true =>
    rw [HandleCreate_allowed guard store ext r req parent hreq hpar hfind hen]
    cases hp : r.principal with
    | none =>
      rw [createSpace_nil_principal]
      simp [Event.isEnforce]
    | some p =>
      rcases createSpace_cases store ext req p parent.Path
          [Event.Find req.ParentID,
            Event.Enforce { SpacePath := parent.Path }
              { Type_ := ResourceType.ResourceTypeSpace, Name := "" }
              Permission.PermissionSpaceCreate] with
        ⟨err, _, h⟩ | ⟨err, _, _, h⟩ | ⟨response, _, _, _, h⟩ <;>
      · rw [h]
        simp [Event.isEnforce, List.filter_cons]

theorem C7_scope_is_parent_path_witness :
    ownerChildRequest.body = Except.ok childBody ∧ 0 < childBody.ParentID
    ∧ demoStore.Find childBody.ParentID = (some teamA, none)
    ∧ (HandleCreate (specGuard demoPolicy) demoStore demoExternals ownerChildRequest).trace.filter
          Event.isEnforce
        = [Event.Enforce { SpacePath := teamA.Path }
            { Type_ := ResourceType.ResourceTypeSpace, Name := "" }
            Permission.PermissionSpaceCreate]
    ∧ ∀ path isSpace, Event.checkPath path isSpace
          ∈ (HandleCreate (specGuard demoPolicy) demoStore demoExternals ownerChildRequest).trace →
        path = Concatinate demoExternals.PathSeparator teamA.Path
            (demoExternals.ToLower childBody.PathName)
          ∧ isSpace = true :=
  ⟨rfl, by decide, rfl,
   C7_scope_is_parent_path (specGuard demoPolicy) demoStore demoExternals ownerChildRequest
     childBody teamA rfl (by decide) rfl⟩

/-- C8: for a request that passes authorization with a present principal `P`, the
validator `check.Space` is handed a node whose `PathName` is the lower-cased path
name of the request, whose `ParentID`, `Name`, `Description` and `IsPublic` are
those of the request and whose `CreatedBy` is the `ID` of `P`, and no other node is
handed to `check.Space` or to `spaceStore.Create`; for a request without parent the
path handed to `check.Path` is the lower-cased path name alone. -/
theorem C8_candidate_node (guard : Guard) (store : SpaceStore) (ext : Externals)
    (r : Request) (req : spaceCreateRequest) (P : Principal)
    (hreq : r.body = Except.ok req) (hp : r.principal = some P)
    (hauth : req.ParentID ≤ 0
      ∨ ∃ parent, store.Find req.ParentID = (some parent, none)
          ∧ guard.Enforce r { SpacePath := parent.Path }
              { Type_ := ResourceType.ResourceTypeSpace, Name := "" }
              Permission.PermissionSpaceCreate = true) :
    ∃ space : Space,
      space.PathName = ext.ToLower req.PathName ∧ space.ParentID = req.ParentID
      ∧ space.Name = req.Name ∧ space.Description = req.Description
      ∧ space.IsPublic = req.IsPublic ∧ space.CreatedBy = P.ID
      ∧ Event.checkSpace space ∈ (HandleCreate guard store ext r).trace
      ∧ (∀ s, Event.checkSpace s ∈ (HandleCreate guard store ext r).trace
            ∨ Event.Create s ∈ (HandleCreate guard store ext r).trace → s = space)
      ∧ (req.ParentID ≤ 0 →
          (∀ path isSpace,
            Event.checkPath path isSpace ∈ (HandleCreate guard store ext r).trace →
              path = ext.ToLower req.PathName)
          ∧ (ext.checkSpace space = none →
              Event.checkPath (ext.ToLower req.PathName) true
                ∈ (HandleCreate guard store ext r).trace)) := by
  refine ⟨newSpace ext req P, rfl, rfl, rfl, rfl, rfl, rfl, ?_⟩
  have hcat : Concatinate ext.PathSeparator "" (ext.ToLower req.PathName)
      = ext.ToLower req.PathName := by simp [Concatinate]
  by_cases hpar : req.ParentID ≤ 0
  · rw [HandleCreate_top guard store ext r req P hreq hpar hp]
    have hc := createSpace_cases store ext req P "" []
    rw [hcat] at hc
    rcases hc with ⟨err, h1, h⟩ | ⟨err, h1, _, h⟩ | ⟨response, h1, _, _, h⟩ <;>
    · rw [h]
      simp [h1]
  · have hpos : 0 < req.ParentID := not_le.mp hpar
    rcases hauth with hle | ⟨parent, hfind, hallow⟩
    · exact absurd hle hpar
    · rw [HandleCreate_allowed guard store ext r req parent hreq hpos hfind hallow, hp]
      rcases createSpace_cases store ext req P parent.Path
          [Event.Find req.ParentID,
            Event.Enforce { SpacePath := parent.Path }
              { Type_ := ResourceType.ResourceTypeSpace, Name := "" }
              Permission.PermissionSpaceCreate] with
        ⟨err, h1, h⟩ | ⟨err, h1, _, h⟩ | ⟨response, h1, _, _, h⟩ <;>
      · rw [h]
        simp [hpar]

theorem C8_candidate_node_witness :
    topRequest.body = Except.ok topBody ∧ topRequest.principal = some { ID := 1 }
    ∧ (topBody.ParentID ≤ 0
      ∨ ∃ parent, demoStore.Find topBody.ParentID = (some parent, none)
          ∧ (specGuard demoPolicy).Enforce topRequest { SpacePath := parent.Path }
              { Type_ := ResourceType.ResourceTypeSpace, Name := "" }
              Permission.PermissionSpaceCreate = true)
    ∧ ∃ space : Space,
      space.PathName = demoExternals.ToLower topBody.PathName
      ∧ space.ParentID = topBody.ParentID
      ∧ space.Name = topBody.Name ∧ space.Description = topBody.Description
      ∧ space.IsPublic = topBody.IsPublic ∧ space.CreatedBy = (Principal.mk 1).ID
      ∧ Event.checkSpace space
          ∈ (HandleCreate (specGuard demoPolicy) demoStore demoExternals topRequest).trace
      ∧ (∀ s, Event.checkSpace s
              ∈ (HandleCreate (specGuard demoPolicy) demoStore demoExternals topRequest).trace
            ∨ Event.Create s
              ∈ (HandleCreate (specGuard demoPolicy) demoStore demoExternals topRequest).trace →
            s = space)
      ∧ (topBody.ParentID ≤ 0 →
          (∀ path isSpace, Event.checkPath path isSpace
              ∈ (HandleCreate (specGuard demoPolicy) demoStore demoExternals topRequest).trace →
              path = demoExternals.ToLower topBody.PathName)
          ∧ (demoExternals.checkSpace space = none →
              Event.checkPath (demoExternals.ToLower topBody.PathName) true
                ∈ (HandleCreate (specGuard demoPolicy) demoStore demoExternals
                    topRequest).trace)) :=
  ⟨rfl, rfl, Or.inl (by decide),
   C8_candidate_node (specGuard demoPolicy) demoStore demoExternals topRequest topBody
     { ID := 1 } rfl rfl (Or.inl (by decide))⟩

theorem HandleCreate_nil_parent (guard : Guard) (store : SpaceStore) (ext : Externals)
    (r : Request) (req : spaceCreateRequest) (hreq : r.body = Except.ok req)
    (hpar : 0 < req.ParentID) (hfind : store.Find req.ParentID = (none, none)) :
    HandleCreate guard store ext r = ⟨[Event.Find req.ParentID], Outcome.nilParent⟩ := by
  have hnot : ¬ req.ParentID ≤ 0 := not_le.mpr hpar
  simp [HandleCreate, hreq, hnot, hfind]

/-- A run either makes no call to a validator or to `Create`, or it is a run of
`createSpace` after calls to `Find` and `Enforce` only. -/
theorem HandleCreate_shape (guard : Guard) (store : SpaceStore) (ext : Externals)
    (r : Request) (req : spaceCreateRequest) (hreq : r.body = Except.ok req) :
    ((∀ s, Event.checkSpace s ∉ (HandleCreate guard store ext r).trace)
      ∧ (∀ path isSpace, Event.checkPath path isSpace ∉ (HandleCreate guard store ext r).trace)
      ∧ (∀ s, Event.Create s ∉ (HandleCreate guard store ext r).trace))
    ∨ ∃ p parentPath done, r.principal = some p ∧ IsParentPath store req parentPath
        ∧ HandleCreate guard store ext r = createSpace store ext req (some p) parentPath done
        ∧ ∀ e ∈ done, e.isEnforce = true ∨ e = Event.Find req.ParentID := by
  by_cases hpar : req.ParentID ≤ 0
  · cases hp : r.principal with
    | none =>
      rw [HandleCreate_anonymous_top guard store ext r req hreq hpar hp]
      exact Or.inl (by simp)
    | some p =>
      exact Or.inr ⟨p, "", [], rfl, Or.inl ⟨hpar, rfl⟩,
        HandleCreate_top guard store ext r req p hreq hpar hp, by simp⟩
  · have hpos : 0 < req.ParentID := not_le.mp hpar
    rcases hfind : store.Find req.ParentID with ⟨_ | parent, _ | err⟩
    · rw [HandleCreate_nil_parent guard store ext r req hreq hpos hfind]
      exact Or.inl (by simp)
    · rw [HandleCreate_find_error guard store ext r req err hreq hpos (by rw [hfind])]
      exact Or.inl (by simp)
    · cases hen : guard.Enforce r { SpacePath := parent.Path }
          { Type_ := ResourceType.ResourceTypeSpace, Name := "" }
          Permission.PermissionSpaceCreate with
      | false =>
        rw [HandleCreate_denied guard store ext r req parent hreq hpos hfind hen]
        exact Or.inl (by simp)
      | true =>
        cases hp : r.principal with
        | none =>
          rw [HandleCreate_allowed guard store ext r req parent hreq hpos hfind hen, hp,
            createSpace_nil_principal]
          exact Or.inl (by simp)
        | some p =>
          refine Or.inr ⟨p, parent.Path,
            [Event.Find req.ParentID,
              Event.Enforce { SpacePath := parent.Path }
                { Type_ := ResourceType.ResourceTypeSpace, Name := "" }
                Permission.PermissionSpaceCreate],
            rfl, Or.inr ⟨parent, hpos, hfind, rfl⟩, ?_, ?_⟩
          · rw [HandleCreate_allowed guard store ext r req parent hreq hpos hfind hen, hp]
          · simp [Event.isEnforce]
    · rw [HandleCreate_find_error guard store ext r req err hreq hpos (by rw [hfind])]
      exact Or.inl (by simp)

/-- C9: in every run on a decoded request, `spaceStore.Create` is called only with a
node that `check.Space` was handed and accepted, and only after `check.Path` was
handed and accepted the path `paths.Concatinate(parentPath, lower-cased pathName)`;
when `check.Space` or `check.Path` returns an error for what it was handed,
`Create` is not called and the run ends by rendering that error, not the node. -/
theorem C9_validation_before_persistence (guard : Guard) (store : SpaceStore)
    (ext : Externals) (r : Request) (req : spaceCreateRequest)
    (hreq : r.body = Except.ok req) :
    (∀ s, Event.Create s ∈ (HandleCreate guard store ext r).trace →
      Event.checkSpace s ∈ (HandleCreate guard store ext r).trace ∧ ext.checkSpace s = none
      ∧ ∃ parentPath, IsParentPath store req parentPath
          ∧ Event.checkPath
              (Concatinate ext.PathSeparator parentPath (ext.ToLower req.PathName)) true
                ∈ (HandleCreate guard store ext r).trace
          ∧ ext.checkPath
              (Concatinate ext.PathSeparator parentPath (ext.ToLower req.PathName)) true = none)
    ∧ (∀ s err, Event.checkSpace s ∈ (HandleCreate guard store ext r).trace →
        ext.checkSpace s = some err →
          (∀ s2, Event.Create s2 ∉ (HandleCreate guard store ext r).trace)
          ∧ (HandleCreate guard store ext r).trace.getLast?
              = some (Event.render (Response.UserfiedErrorOrInternal err))
          ∧ ∀ status s2,
              Event.render (Response.JSON status s2) ∉ (HandleCreate guard store ext r).trace)
    ∧ (∀ path isSpace err,
        Event.checkPath path isSpace ∈ (HandleCreate guard store ext r).trace →
        ext.checkPath path isSpace = some err →
          (∀ s2, Event.Create s2 ∉ (HandleCreate guard store ext r).trace)
          ∧ (HandleCreate guard store ext r).trace.getLast?
              = some (Event.render (Response.UserfiedErrorOrInternal err))
          ∧ ∀ status s2,
              Event.render (Response.JSON status s2)
                ∉ (HandleCreate guard store ext r).trace) := by
  rcases HandleCreate_shape guard store ext r req hreq with
    ⟨h1, h2, h3⟩ | ⟨p, parentPath, done, _, hpp, hrun, hdone⟩
  · exact ⟨fun s hs => absurd hs (h3 s), fun s _ hs => absurd hs (h1 s),
      fun path b _ hs => absurd hs (h2 path b)⟩
  · have hd1 : ∀ s, Event.checkSpace s ∉ done := fun s hs => by
      rcases hdone _ hs with h | h <;> simp [Event.isEnforce] at h
    have hd2 : ∀ path b, Event.checkPath path b ∉ done := fun path b hs => by
      rcases hdone _ hs with h | h <;> simp [Event.isEnforce] at h
    have hd3 : ∀ s, Event.Create s ∉ done := fun s hs => by
      rcases hdone _ hs with h | h <;> simp [Event.isEnforce] at h
    have hd4 : ∀ x, Event.render x ∉ done := fun x hs => by
      rcases hdone _ hs with h | h <;> simp [Event.isEnforce] at h
    rw [hrun]
    rcases createSpace_cases store ext req p parentPath done with
      ⟨err, c1, h⟩ | ⟨err, c1, c2, h⟩ | ⟨response, c1, c2, c3, h⟩
    · rw [h]
      refine ⟨?_, ?_, ?_⟩
      · intro s hs
        simp [hd3] at hs
      · intro s e hs he
        simp [hd1] at hs
        subst hs
        rw [c1] at he
        cases he
        simp [hd3, hd4, List.getLast?_append]
      · intro path b e hs
        simp [hd2] at hs
    · rw [h]
      refine ⟨?_, ?_, ?_⟩
      · intro s hs
        simp [hd3] at hs
      · intro s e hs he
        simp [hd1] at hs
        subst hs
        rw [c1] at he
        cases he
      · intro path b e hs he
        simp [hd2] at hs
        obtain ⟨rfl, rfl⟩ := hs
        rw [c2] at he
        cases he
        simp [hd3, hd4, List.getLast?_append]
    · rw [h]
      refine ⟨?_, ?_, ?_⟩
      · intro s hs
        simp [hd3] at hs
        subst hs
        exact ⟨by simp, c1, parentPath, hpp, by simp, c2⟩
      · intro s e hs he
        simp [hd1] at hs
        subst hs
        rw [c1] at he
        cases he
      · intro path b e hs he
        simp [hd2] at hs
        obtain ⟨rfl, rfl⟩ := hs
        rw [c2] at he
        cases he

theorem C9_validation_before_persistence_witness :
    topRequest.body = Except.ok topBody
    ∧ (∀ s, Event.Create s
          ∈ (HandleCreate (specGuard demoPolicy) demoStore demoExternals topRequest).trace →
      Event.checkSpace s
          ∈ (HandleCreate (specGuard demoPolicy) demoStore demoExternals topRequest).trace
      ∧ demoExternals.checkSpace s = none
      ∧ ∃ parentPath, IsParentPath demoStore topBody parentPath
          ∧ Event.checkPath
              (Concatinate demoExternals.PathSeparator parentPath
                (demoExternals.ToLower topBody.PathName)) true
                ∈ (HandleCreate (specGuard demoPolicy) demoStore demoExternals topRequest).trace
          ∧ demoExternals.checkPath
              (Concatinate demoExternals.PathSeparator parentPath
                (demoExternals.ToLower topBody.PathName)) true = none)
    ∧ (∀ s err, Event.checkSpace s
          ∈ (HandleCreate (specGuard demoPolicy) demoStore demoExternals topRequest).trace →
        demoExternals.checkSpace s = some err →
          (∀ s2, Event.Create s2
            ∉ (HandleCreate (specGuard demoPolicy) demoStore demoExternals topRequest).trace)
          ∧ (HandleCreate (specGuard demoPolicy) demoStore demoExternals
                topRequest).trace.getLast?
              = some (Event.render (Response.UserfiedErrorOrInternal err))
          ∧ ∀ status s2, Event.render (Response.JSON status s2)
              ∉ (HandleCreate (specGuard demoPolicy) demoStore demoExternals topRequest).trace)
    ∧ (∀ path isSpace err, Event.checkPath path isSpace
          ∈ (HandleCreate (specGuard demoPolicy) demoStore demoExternals topRequest).trace →
        demoExternals.checkPath path isSpace = some err →
          (∀ s2, Event.Create s2
            ∉ (HandleCreate (specGuard demoPolicy) demoStore demoExternals topRequest).trace)
          ∧ (HandleCreate (specGuard demoPolicy) demoStore demoExternals
                topRequest).trace.getLast?
              = some (Event.render (Response.UserfiedErrorOrInternal err))
          ∧ ∀ status s2, Event.render (Response.JSON status s2)
              ∉ (HandleCreate (specGuard demoPolicy) demoStore demoExternals
                  topRequest).trace) :=
  ⟨rfl,
   C9_validation_before_persistence (specGuard demoPolicy) demoStore demoExternals topRequest
     topBody rfl⟩

/-- A guard that lets no anonymous request pass keeps the handler from reaching the
construction of the space object with a nil principal. -/
theorem principal_present_of_guard (guard : Guard) (store : SpaceStore) (ext : Externals)
    (r : Request)
    (hguard : r.principal = none → ∀ scope resource,
      guard.Enforce r scope resource Permission.PermissionSpaceCreate = false) :
    (HandleCreate guard store ext r).outcome ≠ Outcome.nilPrincipal
    ∧ ((∃ s, Event.checkSpace s ∈ (HandleCreate guard store ext r).trace) →
        ∃ P, r.principal = some P) := by
  cases hbody : r.body with
  | error err => simp [HandleCreate, hbody]
  | ok req =>
    cases hp : r.principal with
    | some P =>
      refine ⟨?_, fun _ => ⟨P, rfl⟩⟩
      rcases HandleCreate_shape guard store ext r req hbody with
        ⟨h1, _, _⟩ | ⟨p, parentPath, done, _, _, hrun, _⟩
      · by_cases hpar : req.ParentID ≤ 0
        · rw [HandleCreate_top guard store ext r req P hbody hpar hp]
          rcases createSpace_cases store ext req P "" [] with
            ⟨err, _, h⟩ | ⟨err, _, _, h⟩ | ⟨response, _, _, _, h⟩ <;>
          · rw [h]
            simp
        · have hpos : 0 < req.ParentID := not_le.mp hpar
          rcases hfind : store.Find req.ParentID with ⟨_ | parent, _ | err⟩
          · rw [HandleCreate_nil_parent guard store ext r req hbody hpos hfind]
            simp
          · rw [HandleCreate_find_error guard store ext r req err hbody hpos (by rw [hfind])]
            simp
          · cases hen : guard.Enforce r { SpacePath := parent.Path }
                { Type_ := ResourceType.ResourceTypeSpace, Name := "" }
                Permission.PermissionSpaceCreate with
            | false =>
              rw [HandleCreate_denied guard store ext r req parent hbody hpos hfind hen]
              simp
            | true =>
              rw [HandleCreate_allowed guard store ext r req parent hbody hpos hfind hen, hp]
              rcases createSpace_cases store ext req P parent.Path
                  [Event.Find req.ParentID,
                    Event.Enforce { SpacePath := parent.Path }
                      { Type_ := ResourceType.ResourceTypeSpace, Name := "" }
                      Permission.PermissionSpaceCreate] with
                ⟨err, _, h⟩ | ⟨err, _, _, h⟩ | ⟨response, _, _, _, h⟩ <;>
              · rw [h]
                simp
          · rw [HandleCreate_find_error guard store ext r req err hbody hpos (by rw [hfind])]
            simp
      · rw [hrun]
        rcases createSpace_cases store ext req p parentPath done with
          ⟨err, _, h⟩ | ⟨err, _, _, h⟩ | ⟨response, _, _, _, h⟩ <;>
        · rw [h]
          simp
    | none =>
      by_cases hpar : req.ParentID ≤ 0
      · rw [HandleCreate_anonymous_top guard store ext r req hbody hpar hp]
        simp
      · have hpos : 0 < req.ParentID := not_le.mp hpar
        rcases hfind : store.Find req.ParentID with ⟨_ | parent, _ | err⟩
        · rw [HandleCreate_nil_parent guard store ext r req hbody hpos hfind]
          simp
        · rw [HandleCreate_find_error guard store ext r req err hbody hpos (by rw [hfind])]
          simp
        · rw [HandleCreate_denied guard store ext r req parent hbody hpos hfind
            (hguard hp _ _)]
          simp
        · rw [HandleCreate_find_error guard store ext r req err hbody hpos (by rw [hfind])]
          simp

theorem specGuard_anonymous (policy : Policy)
    (hperm : policy.requiresIdentified Permission.PermissionSpaceCreate = true)
    (r : Request) (hp : r.principal = none) (scope : Scope) (resource : Resource) :
    (specGuard policy).Enforce r scope resource Permission.PermissionSpaceCreate = false := by
  simp [specGuard, enforce, hp, hperm]

/-- With the guard of the spec and a policy under which creating a space requires an
identified actor, no run ends in the nil dereference of `principal.ID`, and the
principal is present whenever the space object has been built. -/
theorem specGuard_principal_present (policy : Policy) (store : SpaceStore) (ext : Externals)
    (r : Request)
    (hperm : policy.requiresIdentified Permission.PermissionSpaceCreate = true) :
    (HandleCreate (specGuard policy) store ext r).outcome ≠ Outcome.nilPrincipal
    ∧ ((∃ s, Event.checkSpace s ∈ (HandleCreate (specGuard policy) store ext r).trace) →
        ∃ P, r.principal = some P) :=
  principal_present_of_guard (specGuard policy) store ext r
    (fun hp scope resource => specGuard_anonymous policy hperm r hp scope resource)

/-- C10, as stated, fails: the guard of the spec with a policy under which creating a
space does not require an identified actor returns true for the anonymous request
to create `proj` under the space 1, and the handler, which makes no check of its
own on the branch `ParentID > 0`, goes on to `CreatedBy: principal.ID` with a nil
principal: the run ends in the nil dereference of line 93 after the calls to `Find`
and `Enforce`. -/
theorem C10_anonymous_passes_guard :
    anonymousChildRequest.body = Except.ok childBody
    ∧ 0 < childBody.ParentID
    ∧ anonymousChildRequest.principal = none
    ∧ demoStore.Find childBody.ParentID = (some teamA, none)
    ∧ (specGuard openPolicy).Enforce anonymousChildRequest { SpacePath := teamA.Path }
        { Type_ := ResourceType.ResourceTypeSpace, Name := "" }
        Permission.PermissionSpaceCreate = true
    ∧ HandleCreate (specGuard openPolicy) demoStore demoExternals anonymousChildRequest
        = ⟨[Event.Find 1,
            Event.Enforce { SpacePath := "team-a" }
              { Type_ := ResourceType.ResourceTypeSpace, Name := "" }
              Permission.PermissionSpaceCreate], Outcome.nilPrincipal⟩ :=
  ⟨rfl, by decide, rfl, rfl, rfl, rfl⟩

/-- C10, amended: for every decoded request, whatever the guard, the principal is
present whenever the space object has been built (the validator `check.Space` has
been handed it), and on the branch `ParentID <= 0` the explicit check keeps the
handler from dereferencing a nil principal; on the branch `ParentID > 0` the handler
makes no check of its own, and the run ends in the nil dereference of
`CreatedBy: principal.ID` exactly when the principal is nil, `Find` returned a
parent and `guard.Enforce` returned true for that request. -/
theorem C10_nil_principal_only_past_guard (guard : Guard) (store : SpaceStore)
    (ext : Externals) (r : Request) (req : spaceCreateRequest)
    (hreq : r.body = Except.ok req) :
    ((HandleCreate guard store ext r).outcome = Outcome.nilPrincipal ↔
      r.principal = none ∧ 0 < req.ParentID
      ∧ ∃ parent, store.Find req.ParentID = (some parent, none)
          ∧ guard.Enforce r { SpacePath := parent.Path }
              { Type_ := ResourceType.ResourceTypeSpace, Name := "" }
              Permission.PermissionSpaceCreate = true)
    ∧ (req.ParentID ≤ 0 → (HandleCreate guard store ext r).outcome ≠ Outcome.nilPrincipal)
    ∧ ((∃ s, Event.checkSpace s ∈ (HandleCreate guard store ext r).trace) →
        ∃ P, r.principal = some P) := by
  have hiff : (HandleCreate guard store ext r).outcome = Outcome.nilPrincipal ↔
      r.principal = none ∧ 0 < req.ParentID
      ∧ ∃ parent, store.Find req.ParentID = (some parent, none)
          ∧ guard.Enforce r { SpacePath := parent.Path }
              { Type_ := ResourceType.ResourceTypeSpace, Name := "" }
              Permission.PermissionSpaceCreate = true := by
    cases hp : r.principal with
    | some P =>
      have hno := (principal_present_of_guard guard store ext r
        (fun h => absurd h (by simp [hp]))).1
      constructor
      · intro h
        exact absurd h hno
      · rintro ⟨h, _⟩
        cases h
    | none =>
      by_cases hpar : req.ParentID ≤ 0
      · rw [HandleCreate_anonymous_top guard store ext r req hreq hpar hp]
        constructor
        · intro h
          cases h
        · rintro ⟨_, hpos, _⟩
          exact absurd hpar (not_le.mpr hpos)
      · have hpos : 0 < req.ParentID := not_le.mp hpar
        rcases hfind : store.Find req.ParentID with ⟨_ | parent, _ | err⟩
        · rw [HandleCreate_nil_parent guard store ext r req hreq hpos hfind]
          constructor
          · intro h
            cases h
          · rintro ⟨_, _, parent, h, _⟩
            cases h
        · rw [HandleCreate_find_error guard store ext r req err hreq hpos (by rw [hfind])]
          constructor
          · intro h
            cases h
          · rintro ⟨_, _, parent, h, _⟩
            cases h
        · cases hen : guard.Enforce r { SpacePath := parent.Path }
              { Type_ := ResourceType.ResourceTypeSpace, Name := "" }
              Permission.PermissionSpaceCreate with
          | false =>
            rw [HandleCreate_denied guard store ext r req parent hreq hpos hfind hen]
            constructor
            · intro h
              cases h
            · rintro ⟨_, _, parent2, h, hen2⟩
              cases h
              rw [hen] at hen2
              cases hen2
          | true =>
            rw [HandleCreate_allowed guard store ext r req parent hreq hpos hfind hen, hp,
              createSpace_nil_principal]
            exact ⟨fun _ => ⟨rfl, hpos, parent, rfl, hen⟩, fun _ => rfl⟩
        · rw [HandleCreate_find_error guard store ext r req err hreq hpos (by rw [hfind])]
          constructor
          · intro h
            cases h
          · rintro ⟨_, _, parent, h, _⟩
            cases h
  refine ⟨hiff, ?_, ?_⟩
  · intro hpar h
    exact absurd hpar (not_le.mpr (hiff.mp h).2.1)
  · rintro ⟨s, hs⟩
    rcases HandleCreate_shape guard store ext r req hreq with
      ⟨h1, _, _⟩ | ⟨p, _, _, hp, _, _, _⟩
    · exact absurd hs (h1 s)
    · exact ⟨p, hp⟩

theorem C10_nil_principal_only_past_guard_witness :
    anonymousChildRequest.body = Except.ok childBody
    ∧ ((HandleCreate (specGuard demoPolicy) demoStore demoExternals
          anonymousChildRequest).outcome = Outcome.nilPrincipal ↔
        anonymousChildRequest.principal = none ∧ 0 < childBody.ParentID
        ∧ ∃ parent, demoStore.Find childBody.ParentID = (some parent, none)
            ∧ (specGuard demoPolicy).Enforce anonymousChildRequest { SpacePath := parent.Path }
                { Type_ := ResourceType.ResourceTypeSpace, Name := "" }
                Permission.PermissionSpaceCreate = true)
    ∧ (childBody.ParentID ≤ 0 →
        (HandleCreate (specGuard demoPolicy) demoStore demoExternals
          anonymousChildRequest).outcome ≠ Outcome.nilPrincipal)
    ∧ ((∃ s, Event.checkSpace s
          ∈ (HandleCreate (specGuard demoPolicy) demoStore demoExternals
              anonymousChildRequest).trace) →
        ∃ P, anonymousChildRequest.principal = some P) :=
  ⟨rfl,
   C10_nil_principal_only_past_guard (specGuard demoPolicy) demoStore demoExternals
     anonymousChildRequest childBody rfl⟩

end SpaceHandler
